import Mathlib

/-! # Verification of the driver-backup tool (src/main.rs)

Shallow embedding of the pure core of `src/main.rs`: date normalization,
the backup grouping engine, folder-name sanitization, the INF parser
(section classification, version / manufacturer / strings / device lines,
string-table resolution) and the CSV field serializer.

Modelling conventions:
* Rust `String` / `&str` values are lists of Unicode scalar values
  (`List Char`); byte-indexed operations go through explicit UTF-8 byte
  counting (`byteLen`, `takeBytes`).
* Rust's Unicode case mapping (`to_lowercase` / `to_uppercase`,
  `char::is_alphanumeric`, `str::trim`) is modelled by its ASCII restriction
  (`Char.toLower`, `Char.toUpper`, `Char.isAlphanum`, `Char.isWhitespace`),
  with which it agrees on all ASCII input.
* `HashMap` tables are association lists with unique keys
  (`assocInsert` replaces, as `HashMap::insert` does); the *iteration order*
  of a `HashMap` is not fixed by the Rust library, so folds/iterations over a
  table are parameterized by an explicit ordering (a permutation of the
  table), never by a choice the model makes silently.
* A Rust panic is modelled as `none` in an `Option` result.
-/

abbrev Str : Type := List Char

/-- Rust `str::to_lowercase`, restricted to its ASCII behaviour. -/
def toLowerStr (s : Str) : Str := s.map Char.toLower

/-- Rust `str::to_uppercase`, restricted to its ASCII behaviour. -/
def toUpperStr (s : Str) : Str := s.map Char.toUpper

/-- Rust `str::trim` (strip whitespace from both ends). -/
def rustTrim (s : Str) : Str :=
  ((s.dropWhile Char.isWhitespace).reverse.dropWhile Char.isWhitespace).reverse

/-- Rust `str::trim_matches('"')` (strip all leading and trailing quotes). -/
def trimQuotes (s : Str) : Str :=
  ((s.dropWhile (fun c => c == '"')).reverse.dropWhile (fun c => c == '"')).reverse

/-- Rust `str::splitn(2, sep)`: split at the first occurrence of `sep` only
(one piece when `sep` does not occur, two pieces otherwise). -/
def splitn2 (sep : Char) (s : Str) : List Str :=
  if s.contains sep then
    [s.takeWhile (fun c => c != sep), (s.dropWhile (fun c => c != sep)).tail]
  else [s]

/-- UTF-8 byte length of a Rust string (Rust `str::len`). -/
def byteLen (s : Str) : Nat := (s.map Char.utf8Size).sum

/-- The characters occupying the first `n` UTF-8 bytes of `s`; `none` when
byte index `n` is past the end of `s` or falls inside a multi-byte character
(exactly the situations where Rust's byte-range slice `s[0..n]` panics). -/
def takeBytes : Str → Nat → Option Str
  | _, 0 => some []
  | [], _ + 1 => none
  | c :: cs, n + 1 =>
    if c.utf8Size ≤ n + 1 then (takeBytes cs (n + 1 - c.utf8Size)).map (fun t => c :: t)
    else none

/-- Numeric value of a decimal digit string. -/
def decimalValue (s : Str) : Nat := s.foldl (fun a c => a * 10 + (c.toNat - 48)) 0

/-- Rust `str::parse::<u32>` on the inputs reachable in this program (the
call sites only pass non-empty all-digit strings, so sign handling is not
modelled). -/
def parseU32 (s : Str) : Option Nat :=
  if s ≠ [] ∧ s.all Char.isDigit ∧ decimalValue s < 2 ^ 32 then some (decimalValue s)
  else none

/-- `DriverBackup::format_driver_date` (main.rs lines 173-194).  A `none`
result models the Rust panic raised by the byte slice `date_str[0..8]` when
byte index 8 is not a character boundary. -/
def format_driver_date (driver_date : Option Str) : Option Str :=
  match driver_date with
  | none => some ("Unknown".data)
  | some date_str =>
    if 8 ≤ byteLen date_str then
      match takeBytes date_str 8 with
      | none => none
      | some pre =>
        if pre.all Char.isDigit then
          let year := pre.take 4
          let month := (pre.drop 4).take 2
          let day := (pre.drop 6).take 2
          match parseU32 month, parseU32 day with
          | some month_num, some day_num =>
            if 1 ≤ month_num ∧ month_num ≤ 12 ∧ 1 ≤ day_num ∧ day_num ≤ 31 then
              some (year ++ '-' :: month ++ '-' :: day)
            else some date_str
          | _, _ => some date_str
        else some date_str
    else some date_str

/-- The WMI driver record (struct `PnPSignedDriver`). -/
structure PnPSignedDriver where
  class_guid : Option Str
  description : Option Str
  device_class : Option Str
  device_name : Option Str
  driver_date : Option Str
  driver_provider_name : Option Str
  driver_version : Option Str
  inf_name : Option Str
  hardware_id : Option Str
  device_id : Option Str
deriving DecidableEq

/-- `DriverBackup::extract_oem_inf_name` (main.rs lines 197-209). -/
def extract_oem_inf_name (inf_name : Str) : Option Str :=
  let inf_lower := toLowerStr inf_name
  if ("oem".data).isPrefixOf inf_lower && (".inf".data).isSuffixOf inf_lower then
    if inf_lower.all (fun c => c.isAlphanum || c == '.' || c == '_') then some inf_lower
    else none
  else none

/-- `map.entry(k).or_default().push(x)` on a `HashMap<_, Vec<_>>`, modelled
on an association list: append `x` to the vector at key `k`, creating the
entry if absent. -/
def pushEntry {κ β : Type} [DecidableEq κ] (k : κ) (x : β) :
    List (κ × List β) → List (κ × List β)
  | [] => [(k, [x])]
  | (k', xs) :: rest =>
    if k' = k then (k', xs ++ [x]) :: rest else (k', xs) :: pushEntry k x rest

/-- The grouping key a record receives in `DriverBackup::backup_drivers`
(main.rs lines 225-240): `none` when the record has no `inf_name` or its
`inf_name` fails the OEM-INF check (such records are skipped). -/
def groupKey (d : PnPSignedDriver) : Option (Str × Str) :=
  match d.inf_name with
  | none => none
  | some inf =>
    match extract_oem_inf_name inf with
    | none => none
    | some oem_inf => some (d.device_class.getD ("Unknown_Class".data), oem_inf)

/-- The `drivers_by_class_inf` table built by `DriverBackup::backup_drivers`
(main.rs lines 222-240), flattened to association-list form keyed by
(device class, OEM INF name). -/
def drivers_by_class_inf (drivers : List PnPSignedDriver) :
    List ((Str × Str) × List PnPSignedDriver) :=
  drivers.foldl
    (fun gs d =>
      match groupKey d with
      | none => gs
      | some k => pushEntry k d gs)
    []

/-- The character allow-list of the per-package folder name
(main.rs line 289): Unicode-alphanumeric (modelled by its ASCII
restriction), space, `.`, `-`, `_`, `(`, `)`. -/
def allowedFolderChar (c : Char) : Bool :=
  c.isAlphanum || c == ' ' || c == '.' || c == '-' || c == '_' || c == '(' || c == ')'

/-- One character of the folder-name sanitizer (main.rs line 289). -/
def folderChar (c : Char) : Char := if allowedFolderChar c then c else '_'

/-- The per-package folder name built in `DriverBackup::backup_drivers`
(main.rs lines 287-290): `format!("{}_{} Package", name, version)` with every
disallowed character replaced by `_`.  No truncation and no trailing-character
stripping happens in the source. -/
def folder_name (primary_device_name driver_version : Str) : Str :=
  (primary_device_name ++ '_' :: driver_version ++ " Package".data).map folderChar

/-- Rust `mfg_section.split(',').next().unwrap_or(mfg_section)`: the part of a
ManufacturerMap target before the first comma (the whole target when it has no
comma), i.e. the target with its decoration suffix stripped. -/
def baseSection (v : Str) : Str := v.takeWhile (fun c => c != ',')

/-- The device-section test of `InfParser::parse_inf_file` (main.rs lines
770-785): the guard arm tests case-insensitive prefix compatibility in either
direction against the *full* manufacturer targets; the fallback arm tests
whether the section starts with a target stripped of its decoration suffix. -/
def is_device_section (manufacturer_targets : List Str) (section_name : Str) : Bool :=
  manufacturer_targets.any (fun v =>
      (toLowerStr section_name).isPrefixOf (toLowerStr v)
        || (toLowerStr v).isPrefixOf (toLowerStr section_name))
    || manufacturer_targets.any (fun v =>
      (toLowerStr (baseSection v)).isPrefixOf (toLowerStr section_name))

/-- The classification rule as the claim states it (modelled from the spec's
words, for comparison with `is_device_section`): strip the comma-delimited
decoration suffix from each ManufacturerMap target, then test case-insensitive
prefix compatibility in either direction. -/
def claim_device_section (manufacturer_targets : List Str) (section_name : Str) : Bool :=
  manufacturer_targets.any (fun v =>
    (toLowerStr (baseSection v)).isPrefixOf (toLowerStr section_name)
      || (toLowerStr section_name).isPrefixOf (toLowerStr (baseSection v)))

/-- Struct `InfVersionInfo` (main.rs lines 36-44).  The Rust field `class` is
called `class_name` here (`class` is a Lean keyword). -/
structure InfVersionInfo where
  driver_version : Option Str
  driver_date : Option Str
  class_name : Option Str
  class_guid : Option Str
  provider : Option Str
  catalog_file : Option Str
deriving DecidableEq

/-- `InfVersionInfo::default()`. -/
def defaultVersionInfo : InfVersionInfo := ⟨none, none, none, none, none, none⟩

/-- `InfParser::parse_version_line` (main.rs lines 879-907). -/
def parse_version_line (line : Str) (version_info : InfVersionInfo) : InfVersionInfo :=
  match splitn2 '=' line with
  | [p0, p1] =>
    let key := toLowerStr (rustTrim p0)
    let value := trimQuotes (rustTrim p1)
    if key = "driverver".data then
      let dv_parts := splitn2 ',' value
      let vi1 :=
        match dv_parts.head? with
        | some d0 => { version_info with driver_date := some (rustTrim d0) }
        | none => version_info
      match dv_parts with
      | _ :: d1 :: _ => { vi1 with driver_version := some (rustTrim d1) }
      | _ => vi1
    else if key = "class".data then { version_info with class_name := some value }
    else if key = "classguid".data then { version_info with class_guid := some value }
    else if key = "provider".data then { version_info with provider := some value }
    else if key = "catalogfile".data ∨ key = "catalogfile.nt".data
        ∨ key = "catalogfile.ntamd64".data ∨ key = "catalogfile.ntx86".data then
      { version_info with catalog_file := some value }
    else version_info
  | _ => version_info

/-- `HashMap::insert` on an association list: replace the value at an existing
key, append a new binding otherwise (keys stay unique). -/
def assocInsert (k v : Str) : List (Str × Str) → List (Str × Str)
  | [] => [(k, v)]
  | (k', v') :: rest => if k' = k then (k, v) :: rest else (k', v') :: assocInsert k v rest

/-- `InfParser::parse_manufacturer_line` (main.rs lines 909-918). -/
def parse_manufacturer_line (line : Str) (manufacturers : List (Str × Str)) :
    List (Str × Str) :=
  match splitn2 '=' line with
  | [p0, p1] => assocInsert (rustTrim p0) (rustTrim p1) manufacturers
  | _ => manufacturers

/-- `InfParser::parse_strings_line` (main.rs lines 952-961). -/
def parse_strings_line (line : Str) (string_table : List (Str × Str)) :
    List (Str × Str) :=
  match splitn2 '=' line with
  | [p0, p1] => assocInsert (rustTrim p0) (trimQuotes (rustTrim p1)) string_table
  | _ => string_table

/-- The hardware-id acceptance test of `InfParser::parse_device_line`
(main.rs lines 933-943). -/
def hardware_id_ok (hardware_id : Str) : Bool :=
  !hardware_id.isEmpty && (
    ("PCI\\".data).isPrefixOf (toUpperStr hardware_id) ||
    ("USB\\".data).isPrefixOf (toUpperStr hardware_id) ||
    ("HDAUDIO\\".data).isPrefixOf (toUpperStr hardware_id) ||
    ("ACPI\\".data).isPrefixOf (toUpperStr hardware_id) ||
    ("HID\\".data).isPrefixOf (toUpperStr hardware_id) ||
    ("SWD\\".data).isPrefixOf (toUpperStr hardware_id) ||
    ("ROOT\\".data).isPrefixOf (toUpperStr hardware_id) ||
    decide ("VEN_".data <:+: toUpperStr hardware_id) ||
    decide ("DEV_".data <:+: toUpperStr hardware_id))

/-- `InfParser::parse_device_line` (main.rs lines 920-950). -/
def parse_device_line (line : Str) (current_section : Str)
    (device_sections : List (Str × List (Str × Str))) :
    List (Str × List (Str × Str)) :=
  match splitn2 '=' line with
  | [p0, p1] =>
    let device_desc := rustTrim p0
    let right_side := rustTrim p1
    match List.splitOn ',' right_side with
    | _ :: hw1 :: _ =>
      let hardware_id := rustTrim hw1
      if hardware_id_ok hardware_id then
        pushEntry current_section (device_desc, hardware_id) device_sections
      else device_sections
    | _ => device_sections
  | _ => device_sections

/-- `InfParser::resolve_string` (main.rs lines 963-970). -/
def resolve_string (s : Str) (string_table : List (Str × Str)) : Str :=
  if s.head? = some '%' ∧ s.getLast? = some '%' ∧ 2 < byteLen s then
    (string_table.lookup ((s.drop 1).dropLast)).getD s
  else s

/-- The mutable state of the line loop of `InfParser::parse_inf_file`
(main.rs lines 745-787). -/
structure ParseTables where
  version_info : InfVersionInfo
  manufacturers : List (Str × Str)
  device_sections : List (Str × List (Str × Str))
  string_table : List (Str × Str)
  current_section : Str
deriving DecidableEq

/-- Initial loop state (main.rs lines 745-749). -/
def initTables : ParseTables := ⟨defaultVersionInfo, [], [], [], []⟩

/-- One iteration of the line loop of `InfParser::parse_inf_file`
(main.rs lines 751-787). -/
def parse_line_step (st : ParseTables) (raw_line : Str) : ParseTables :=
  let line := rustTrim raw_line
  if line = [] ∨ line.head? = some ';' then st
  else if line.head? = some '[' ∧ line.getLast? = some ']' then
    { st with current_section := toLowerStr ((line.drop 1).dropLast) }
  else if st.current_section = "version".data then
    { st with version_info := parse_version_line line st.version_info }
  else if st.current_section = "manufacturer".data then
    { st with manufacturers := parse_manufacturer_line line st.manufacturers }
  else if st.current_section = "strings".data then
    { st with string_table := parse_strings_line line st.string_table }
  else if is_device_section (st.manufacturers.map Prod.snd) st.current_section then
    { st with device_sections := parse_device_line line st.current_section st.device_sections }
  else st

/-- The tables `InfParser::parse_inf_file` has built once the line loop ends,
from the file content given as its list of lines. -/
def parse_tables (content : List Str) : ParseTables :=
  content.foldl parse_line_step initTables

/-- Struct `InfDriverInfo` (main.rs lines 12-25). -/
structure InfDriverInfo where
  device_name : Option Str
  description : Option Str
  device_class : Option Str
  class_guid : Option Str
  driver_version : Option Str
  driver_date : Option Str
  driver_provider_name : Option Str
  hardware_id : Option Str
  inf_name : Option Str
  catalog_file : Option Str
  manufacturer : Option Str
deriving DecidableEq

/-- One record built by the record loop of `InfParser::parse_inf_file`
(main.rs lines 793-822).  `mfgOrder` is the iteration order of the
`manufacturers` HashMap used by the `.iter().find(..)` at lines 800-805. -/
def build_driver (file_name : Str) (version_info : InfVersionInfo)
    (mfgOrder : List (Str × Str)) (string_table : List (Str × Str))
    (section_name : Str) (dev : Str × Str) : InfDriverInfo :=
  let resolved_desc := resolve_string dev.1 string_table
  let resolved_provider := version_info.provider.map (fun p => resolve_string p string_table)
  let manufacturer :=
    (mfgOrder.find? (fun nv =>
        (toLowerStr (baseSection nv.2)).isPrefixOf (toLowerStr section_name))).map
      (fun nv => resolve_string nv.1 string_table)
  { device_name := some resolved_desc
    description := some resolved_desc
    device_class := version_info.class_name
    class_guid := version_info.class_guid
    driver_version := version_info.driver_version
    driver_date := version_info.driver_date
    driver_provider_name := resolved_provider
    hardware_id := some dev.2
    inf_name := some file_name
    catalog_file := version_info.catalog_file
    manufacturer := manufacturer }

/-- Struct `ParsedInfFile` (main.rs lines 28-34); the filesystem path is
outside the model. -/
structure ParsedInfFile where
  file_name : Str
  drivers : List InfDriverInfo
  raw_version_info : InfVersionInfo
deriving DecidableEq

/-- `InfParser::parse_inf_file` (main.rs lines 736-831) on decoded content
given as its list of lines.  `dsOrder` is the iteration order of the
`device_sections` HashMap in the record loop (line 792) and `mfgOrder` the
iteration order of the `manufacturers` HashMap inside it; a run of the Rust
code corresponds to a choice of `dsOrder` that is a permutation of the built
`device_sections` table and a `mfgOrder` that is a permutation of the built
`manufacturers` table. -/
def parse_inf_file (file_name : Str) (content : List Str)
    (dsOrder : List (Str × List (Str × Str))) (mfgOrder : List (Str × Str)) :
    ParsedInfFile :=
  let st := parse_tables content
  let drivers := dsOrder.flatMap (fun sd =>
    sd.2.map (build_driver file_name st.version_info mfgOrder st.string_table sd.1))
  ⟨file_name, drivers, st.version_info⟩

/-- The CSV field escaper of `InfParser::export_to_csv` (main.rs lines
1035-1041): quote-wrap and double the internal quotes exactly when the field
contains a comma, a quote or a newline. -/
def escape_csv (s : Str) : Str :=
  if s.contains ',' || s.contains '"' || s.contains '\n' then
    '"' :: (s.flatMap (fun c => if c == '"' then ['"', '"'] else [c])) ++ ['"']
  else s

/-- One CSV field as serialized at main.rs lines 1047-1057:
`escape_csv(value.as_deref().unwrap_or("Unknown"))`. -/
def csv_field (value : Option Str) : Str := escape_csv (value.getD ("Unknown".data))

/-- The bus-prefix allow-list of `InfParser::parse_device_line`
(main.rs lines 934-940). -/
def busPrefixes : List Str :=
  ["PCI\\".data, "USB\\".data, "HDAUDIO\\".data, "ACPI\\".data,
   "HID\\".data, "SWD\\".data, "ROOT\\".data]

/-- The hardware-id acceptance rule as the claim states it (modelled from the
spec's words, for comparison with `hardware_id_ok`): non-empty, and either a
case-insensitive bus-prefix match or a vendor/device token marker. -/
def claimAccept (hardware_id : Str) : Prop :=
  hardware_id ≠ [] ∧
    ((∃ p ∈ busPrefixes, p <+: toUpperStr hardware_id)
      ∨ "VEN_".data <:+: toUpperStr hardware_id
      ∨ "DEV_".data <:+: toUpperStr hardware_id)

/-- A driver record with every field absent (concrete grouping input). -/
def emptyDriver : PnPSignedDriver :=
  ⟨none, none, none, none, none, none, none, none, none, none⟩

/-- A driver record whose only present field is a valid OEM INF name. -/
def oemDriver : PnPSignedDriver :=
  ⟨none, none, none, none, none, none, none, some ("oem1.inf".data), none, none⟩

/-- A small INF content with two device sections (concrete parse input). -/
def infContent2 : List Str :=
  ["[Version]".data, "Provider=Acme".data,
   "[Manufacturer]".data, "AcmeMfg=SecA".data, "OtherMfg=SecB".data,
   "[SecA]".data, "Dev1=Inst,PCI\\VEN_0001".data,
   "[SecB]".data, "Dev2=Inst,PCI\\VEN_0002".data]

/-- One HashMap iteration order of the device-section table of `infContent2`. -/
def dsOrderA : List (Str × List (Str × Str)) :=
  [("seca".data, [("Dev1".data, "PCI\\VEN_0001".data)]),
   ("secb".data, [("Dev2".data, "PCI\\VEN_0002".data)])]

/-- The opposite iteration order of the same table. -/
def dsOrderB : List (Str × List (Str × Str)) :=
  [("secb".data, [("Dev2".data, "PCI\\VEN_0002".data)]),
   ("seca".data, [("Dev1".data, "PCI\\VEN_0001".data)])]

/-- An iteration order of the manufacturers table of `infContent2`. -/
def mfgOrderA : List (Str × Str) :=
  [("AcmeMfg".data, "SecA".data), ("OtherMfg".data, "SecB".data)]

theorem contains_iff_mem (s : Str) (c : Char) : s.contains c = true ↔ c ∈ s := by
  simp [List.contains]

theorem utf8Size_one_of_digit (c : Char) (h : c.isDigit = true) : c.utf8Size = 1 := by
  simp [Char.isDigit] at h
  unfold Char.utf8Size
  rw [if_pos]
  rw [UInt32.le_def, BitVec.le_def]
  exact le_trans h.2 (by decide)

theorem byteLen_append (a b : Str) : byteLen (a ++ b) = byteLen a + byteLen b := by
  simp [byteLen]

theorem byteLen_cons (c : Char) (cs : Str) : byteLen (c :: cs) = c.utf8Size + byteLen cs := by
  simp [byteLen]

theorem byteLen_eq_length_of_digits (s : Str) (h : s.all Char.isDigit = true) :
    byteLen s = s.length := by
  induction s with
  | nil => rfl
  | cons c cs ih =>
    simp only [List.all_cons, Bool.and_eq_true] at h
    rw [byteLen_cons, utf8Size_one_of_digit c h.1, ih h.2, List.length_cons]
    omega

theorem takeBytes_append_digits (pre rest : Str) (h : pre.all Char.isDigit = true) :
    takeBytes (pre ++ rest) pre.length = some pre := by
  induction pre with
  | nil => simp [takeBytes]
  | cons c cs ih =>
    simp only [List.all_cons, Bool.and_eq_true] at h
    have hc := utf8Size_one_of_digit c h.1
    simp [takeBytes, hc, ih h.2]

theorem takeBytes_some (s : Str) : ∀ (n : Nat) (t : Str), takeBytes s n = some t →
    ∃ r, s = t ++ r ∧ byteLen t = n := by
  induction s with
  | nil =>
    intro n t h
    cases n with
    | zero =>
      simp only [takeBytes, Option.some.injEq] at h
      exact ⟨[], by simp [← h], by simp [← h, byteLen]⟩
    | succ m => simp [takeBytes] at h
  | cons c cs ih =>
    intro n t h
    cases n with
    | zero =>
      simp only [takeBytes, Option.some.injEq] at h
      exact ⟨c :: cs, by simp [← h], by simp [← h, byteLen]⟩
    | succ m =>
      simp only [takeBytes] at h
      split at h
      · next hsz =>
        rcases Option.map_eq_some'.1 h with ⟨t', ht', rfl⟩
        rcases ih (m + 1 - c.utf8Size) t' ht' with ⟨r, hr, hbl⟩
        exact ⟨r, by simp [hr], by rw [byteLen_cons, hbl]; omega⟩
      · exact absurd h (by simp)

theorem parseU32_two_digits (a b : Char) (ha : a.isDigit = true) (hb : b.isDigit = true) :
    parseU32 [a, b] = some (decimalValue [a, b]) := by
  have hb99 : decimalValue [a, b] < 2 ^ 32 := by
    have h1 : a.toNat ≤ 57 := by simp [Char.isDigit] at ha; exact ha.2
    have h2 : b.toNat ≤ 57 := by simp [Char.isDigit] at hb; exact hb.2
    simp only [decimalValue, List.foldl_cons, List.foldl_nil]
    omega
  simp [parseU32, ha, hb]
  omega

theorem all_take (s : Str) (p : Char → Bool) (n : Nat) (h : s.all p = true) :
    (s.take n).all p = true := by
  rw [List.all_eq_true] at h ⊢
  exact fun x hx => h x (List.mem_of_mem_take hx)

theorem all_drop (s : Str) (p : Char → Bool) (n : Nat) (h : s.all p = true) :
    (s.drop n).all p = true := by
  rw [List.all_eq_true] at h ⊢
  exact fun x hx => h x (List.mem_of_mem_drop hx)

/-- C1 (amended): `format_driver_date` renders a missing date as the literal
"Unknown"; returns any string of byte length below 8 unchanged; normalizes any
string whose first 8 characters are ASCII digits `YYYYMMDD` with month in
[1,12] and day in [1,31] to `YYYY-MM-DD` built from those 8 digits, dropping
all trailing characters (here the original claim fails: a string longer than
8 characters is not returned unchanged); and returns every other string whose
8-byte prefix falls on a character boundary unchanged. -/
theorem format_driver_date_c1_amended :
    format_driver_date none = some ("Unknown".data)
    ∧ (∀ s : Str, byteLen s < 8 → format_driver_date (some s) = some s)
    ∧ (∀ pre rest : Str, pre.length = 8 → pre.all Char.isDigit = true →
        ((1 ≤ decimalValue ((pre.drop 4).take 2) ∧ decimalValue ((pre.drop 4).take 2) ≤ 12
            ∧ 1 ≤ decimalValue ((pre.drop 6).take 2) ∧ decimalValue ((pre.drop 6).take 2) ≤ 31) →
          format_driver_date (some (pre ++ rest))
            = some (pre.take 4 ++ '-' :: (pre.drop 4).take 2 ++ '-' :: (pre.drop 6).take 2))
        ∧ (¬ (1 ≤ decimalValue ((pre.drop 4).take 2) ∧ decimalValue ((pre.drop 4).take 2) ≤ 12
            ∧ 1 ≤ decimalValue ((pre.drop 6).take 2) ∧ decimalValue ((pre.drop 6).take 2) ≤ 31) →
          format_driver_date (some (pre ++ rest)) = some (pre ++ rest)))
    ∧ (∀ (s pre : Str), takeBytes s 8 = some pre → pre.all Char.isDigit = false →
        format_driver_date (some s) = some s) := by
  refine ⟨rfl, ?_, ?_, ?_⟩
  · intro s h
    simp [format_driver_date, Nat.not_le.2 h]
  · intro pre rest hlen hdig
    have hbl8 : byteLen pre = 8 := by rw [byteLen_eq_length_of_digits pre hdig, hlen]
    have hble : 8 ≤ byteLen (pre ++ rest) := by rw [byteLen_append]; omega
    have htb : takeBytes (pre ++ rest) 8 = some pre := by
      have := takeBytes_append_digits pre rest hdig
      rwa [hlen] at this
    have hmdig : ((pre.drop 4).take 2).all Char.isDigit = true :=
      all_take _ _ _ (all_drop _ _ _ hdig)
    have hddig : ((pre.drop 6).take 2).all Char.isDigit = true :=
      all_take _ _ _ (all_drop _ _ _ hdig)
    have hmlen : ((pre.drop 4).take 2).length = 2 := by
      simp [List.length_take, List.length_drop, hlen]
    have hdlen : ((pre.drop 6).take 2).length = 2 := by
      simp [List.length_take, List.length_drop, hlen]
    obtain ⟨a, b, hab⟩ := List.length_eq_two.1 hmlen
    obtain ⟨x, y, hxy⟩ := List.length_eq_two.1 hdlen
    rw [hab] at hmdig
    rw [hxy] at hddig
    simp only [List.all_cons, List.all_nil, Bool.and_eq_true, Bool.and_true] at hmdig hddig
    have pm : parseU32 ((pre.drop 4).take 2) = some (decimalValue ((pre.drop 4).take 2)) := by
      rw [hab]; exact parseU32_two_digits a b hmdig.1 hmdig.2
    have pd : parseU32 ((pre.drop 6).take 2) = some (decimalValue ((pre.drop 6).take 2)) := by
      rw [hxy]; exact parseU32_two_digits x y hddig.1 hddig.2
    constructor
    · intro hvalid
      simp only [format_driver_date, htb, if_pos hble, hdig, if_true, pm, pd]
      rw [if_pos hvalid]
    · intro hinvalid
      simp only [format_driver_date, htb, if_pos hble, hdig, if_true, pm, pd]
      rw [if_neg hinvalid]
  · intro s pre htb hdigF
    rcases takeBytes_some s 8 pre htb with ⟨r, hs, hblpre⟩
    have hble : 8 ≤ byteLen s := by rw [hs, byteLen_append]; omega
    simp [format_driver_date, htb, if_pos hble, hdigF]

/-- Witness for C1 (amended), at the concrete input "2023010599": the first
8 digits are normalized and the trailing "99" is dropped. -/
theorem format_driver_date_c1_amended_witness :
    format_driver_date (some (("20230105".data) ++ ("99".data)))
      = some (("20230105".data).take 4 ++ '-' :: (("20230105".data).drop 4).take 2
          ++ '-' :: (("20230105".data).drop 6).take 2) :=
  (format_driver_date_c1_amended.2.2.1 ("20230105".data) ("99".data)
    (by decide) (by decide)).1 (by decide)

/-- C1 counterexample: the 9-character numeric string "202301059" is not an
exactly-8-digit date, so the claim requires it to pass through unchanged; the
code instead normalizes its first 8 digits and drops the trailing "9". -/
theorem format_driver_date_c1_cex :
    format_driver_date (some ("202301059".data)) = some ("2023-01-05".data)
    ∧ ("202301059".data : Str) ≠ "2023-01-05".data := by
  decide

/-- C10: `format_driver_date` is not total.  On `Some("1234567é")` — byte
length 9 ≥ 8 with byte index 8 falling inside the two-byte character 'é' —
the byte slice `date_str[0..8]` taken before the all-digits check panics,
modelled by the `none` result. -/
theorem format_driver_date_c10_panic :
    format_driver_date (some ("1234567é".data)) = none := by decide

/-- C3 counterexample: a 100-character device name (with version "1.0")
yields a folder label of length 112 — there is no truncation to 100 in the
code, so the claim's length bound fails. -/
theorem folder_name_c3_cex :
    ¬ (folder_name (List.replicate 100 'a') ("1.0".data)).length ≤ 100 := by
  decide

/-- C3 (amended): the folder label is exactly the character-wise sanitization
of `name_version Package` over the code's allow-list (alphanumeric, space,
`.`, `-`, `_`, `(`, `)` — brackets are NOT allowed and get replaced), every
character of the label is in that allow-list, and the label ends in 'e' (the
suffix " Package"), hence never in an underscore; its length is unbounded
(see the counterexample). -/
theorem folder_name_c3_amended (name ver : Str) :
    folder_name name ver
      = name.map folderChar ++ '_' :: ver.map folderChar ++ " Package".data
    ∧ (folder_name name ver).all allowedFolderChar = true
    ∧ (folder_name name ver).getLast? = some 'e' := by
  have hpkg : (" Package".data).map folderChar = " Package".data := by decide
  have hund : folderChar '_' = '_' := by decide
  have h1 : folder_name name ver
      = name.map folderChar ++ '_' :: ver.map folderChar ++ " Package".data := by
    simp [folder_name, hpkg, hund]
  refine ⟨h1, ?_, ?_⟩
  · rw [List.all_eq_true]
    intro c hc
    rcases List.mem_map.1 hc with ⟨x, hx, rfl⟩
    by_cases hA : allowedFolderChar x = true
    · simp [folderChar, hA]
    · simp only [Bool.not_eq_true] at hA
      simp only [folderChar, hA, Bool.false_eq_true, if_false]
      decide
  · rw [h1, show name.map folderChar ++ '_' :: ver.map folderChar ++ " Package".data
        = (name.map folderChar ++ '_' :: ver.map folderChar) ++ " Package".data by simp,
      List.getLast?_append]
    rfl

theorem pushEntry_sum {κ β : Type} [DecidableEq κ] (k : κ) (x : β)
    (gs : List (κ × List β)) :
    ((pushEntry k x gs).map (fun g => g.2.length)).sum
      = ((gs.map (fun g => g.2.length)).sum) + 1 := by
  induction gs with
  | nil => simp [pushEntry]
  | cons g rest ih =>
    obtain ⟨k', xs⟩ := g
    by_cases h : k' = k
    · simp only [pushEntry, if_pos h, List.map_cons, List.sum_cons, List.length_append,
        List.length_cons, List.length_nil]
      omega
    · simp only [pushEntry, if_neg h, List.map_cons, List.sum_cons, ih]
      omega

theorem backup_fold_sum (ds : List PnPSignedDriver) :
    ∀ gs : List ((Str × Str) × List PnPSignedDriver),
      ((ds.foldl (fun gs d =>
          match groupKey d with
          | none => gs
          | some k => pushEntry k d gs) gs).map (fun g => g.2.length)).sum
        = ((gs.map (fun g => g.2.length)).sum)
          + (ds.filter (fun d => (groupKey d).isSome)).length := by
  induction ds with
  | nil => simp
  | cons d rest ih =>
    intro gs
    simp only [List.foldl_cons, List.filter_cons]
    cases hk : groupKey d with
    | none => simp [hk, ih]
    | some k =>
      simp only [hk, Option.isSome_some, if_pos, List.length_cons, ih, pushEntry_sum]
      omega

/-- C2 (amended): in the grouping loop of `backup_drivers`, the records that
carry an `inf_name` passing the OEM-INF validity check each land in exactly
one (device class, OEM INF) bucket — so the sum of group member counts equals
the number of *such* records, not of all input records (records without a
valid OEM `inf_name` are skipped; see the counterexample) — and a qualifying
record lacking `device_class` lands in the "Unknown_Class" bucket rather than
being dropped. -/
theorem drivers_by_class_inf_c2_amended (drivers : List PnPSignedDriver) :
    ((drivers_by_class_inf drivers).map (fun g => g.2.length)).sum
      = (drivers.filter (fun d => (groupKey d).isSome)).length
    ∧ ∀ d : PnPSignedDriver, ∀ inf oem_inf : Str,
        d.device_class = none → d.inf_name = some inf →
        extract_oem_inf_name inf = some oem_inf →
        groupKey d = some ("Unknown_Class".data, oem_inf) := by
  constructor
  · have h := backup_fold_sum drivers []
    simpa [drivers_by_class_inf] using h
  · intro d inf oem_inf hdc hinf hoem
    simp [groupKey, hinf, hoem, hdc]

/-- Witness for C2 (amended) at a concrete one-record input whose record has
a valid OEM INF name and no device class. -/
theorem drivers_by_class_inf_c2_amended_witness :
    ((drivers_by_class_inf [oemDriver]).map (fun g => g.2.length)).sum
      = ([oemDriver].filter (fun d => (groupKey d).isSome)).length
    ∧ groupKey oemDriver = some ("Unknown_Class".data, "oem1.inf".data) :=
  ⟨(drivers_by_class_inf_c2_amended [oemDriver]).1,
   (drivers_by_class_inf_c2_amended [oemDriver]).2 oemDriver ("oem1.inf".data)
     ("oem1.inf".data) rfl rfl (by decide)⟩

/-- C2 counterexample: a single input record with no `inf_name` is fed to the
grouping loop; it appears in no output group, so the sum of group member
counts is 0 while the input has 1 record — the claimed equality fails. -/
theorem drivers_by_class_inf_c2_cex :
    ((drivers_by_class_inf [emptyDriver]).map (fun g => g.2.length)).sum = 0
    ∧ [emptyDriver].length = 1 := by
  decide

/-- C4: the device-section test the parser performs (either-direction prefix
compatibility against the *full* manufacturer target, or a one-direction
prefix test against the decoration-stripped target) coincides with the
claim's rule (either-direction case-insensitive prefix compatibility against
the stripped target) for every manufacturer table and observed section name:
the stripped target is itself a prefix of the full target, and two prefixes
of a common string are always comparable. -/
theorem is_device_section_c4 (manufacturer_targets : List Str) (section_name : Str) :
    is_device_section manufacturer_targets section_name
      = claim_device_section manufacturer_targets section_name := by
  rw [Bool.eq_iff_iff]
  simp only [is_device_section, claim_device_section, Bool.or_eq_true, List.any_eq_true,
    List.isPrefixOf_iff_prefix]
  constructor
  · rintro (⟨v, hv, h | h⟩ | ⟨v, hv, h⟩)
    · have hbase : toLowerStr (baseSection v) <+: toLowerStr v :=
        List.IsPrefix.map Char.toLower ( List.takeWhile_prefix _)
      rcases List.prefix_or_prefix_of_prefix hbase h with h' | h'
      · exact ⟨v, hv, Or.inl h'⟩
      · exact ⟨v, hv, Or.inr h'⟩
    · have hbase : toLowerStr (baseSection v) <+: toLowerStr v :=
        List.IsPrefix.map Char.toLower ( List.takeWhile_prefix _)
      exact ⟨v, hv, Or.inl (hbase.trans h)⟩
    · exact ⟨v, hv, Or.inl h⟩
  · rintro ⟨v, hv, h | h⟩
    · exact Or.inr ⟨v, hv, h⟩
    · have hbase : toLowerStr (baseSection v) <+: toLowerStr v :=
        List.IsPrefix.map Char.toLower ( List.takeWhile_prefix _)
      exact Or.inl ⟨v, hv, Or.inl (h.trans hbase)⟩

/-- C5 (amended): parsing the same content twice yields the same file name and
the same version block, and driver lists that are permutations of each other
(the same records as a multiset) whenever the manufacturers-map iteration
order is unchanged; the *order* of the records follows the device-section
HashMap's iteration order, which Rust does not fix across runs, so
field-for-field identity (including record order) does not hold in general —
see the counterexample. -/
theorem parse_inf_file_c5_amended (file_name : Str) (content : List Str)
    (o1 o2 : List (Str × List (Str × Str))) (m : List (Str × Str))
    (h1 : o1.Perm (parse_tables content).device_sections)
    (h2 : o2.Perm (parse_tables content).device_sections) :
    (parse_inf_file file_name content o1 m).file_name
      = (parse_inf_file file_name content o2 m).file_name
    ∧ (parse_inf_file file_name content o1 m).raw_version_info
      = (parse_inf_file file_name content o2 m).raw_version_info
    ∧ (parse_inf_file file_name content o1 m).drivers.Perm
        (parse_inf_file file_name content o2 m).drivers := by
  refine ⟨rfl, rfl, ?_⟩
  exact List.Perm.flatMap_right _ (h1.trans h2.symm)

/-- Witness for C5 (amended) at the concrete two-section content
`infContent2` and two opposite valid iteration orders. -/
theorem parse_inf_file_c5_amended_witness :
    (parse_inf_file ("a.inf".data) infContent2 dsOrderA mfgOrderA).file_name
      = (parse_inf_file ("a.inf".data) infContent2 dsOrderB mfgOrderA).file_name
    ∧ (parse_inf_file ("a.inf".data) infContent2 dsOrderA mfgOrderA).raw_version_info
      = (parse_inf_file ("a.inf".data) infContent2 dsOrderB mfgOrderA).raw_version_info
    ∧ (parse_inf_file ("a.inf".data) infContent2 dsOrderA mfgOrderA).drivers.Perm
        (parse_inf_file ("a.inf".data) infContent2 dsOrderB mfgOrderA).drivers :=
  parse_inf_file_c5_amended ("a.inf".data) infContent2 dsOrderA dsOrderB mfgOrderA
    (by decide) (by decide)

/-- C5 counterexample: `dsOrderA` and `dsOrderB` are both valid iteration
orders (permutations) of the device-section table built from `infContent2`,
yet the two parses differ — the two driver records come out in opposite
order, so two runs on identical content need not be field-for-field
identical. -/
theorem parse_inf_file_c5_cex :
    dsOrderA.Perm (parse_tables infContent2).device_sections
    ∧ dsOrderB.Perm (parse_tables infContent2).device_sections
    ∧ mfgOrderA.Perm (parse_tables infContent2).manufacturers
    ∧ parse_inf_file ("a.inf".data) infContent2 dsOrderA mfgOrderA
        ≠ parse_inf_file ("a.inf".data) infContent2 dsOrderB mfgOrderA := by
  decide

/-- C6: `resolve_string` — a candidate wrapped in `%...%` delimiters (with a
non-empty inner token) is resolved through the string table: the mapped value
is returned when the token is bound, and the literal reference text is
returned unchanged when the token is absent (never an error); a non-delimited
candidate passes through unchanged. -/
theorem resolve_string_c6 (s : Str) (string_table : List (Str × Str)) :
    (s.head? = some '%' → s.getLast? = some '%' → 2 < byteLen s →
      (∀ v : Str, string_table.lookup ((s.drop 1).dropLast) = some v →
        resolve_string s string_table = v)
      ∧ (string_table.lookup ((s.drop 1).dropLast) = none →
        resolve_string s string_table = s))
    ∧ (¬ (s.head? = some '%' ∧ s.getLast? = some '%' ∧ 2 < byteLen s) →
      resolve_string s string_table = s) := by
  constructor
  · intro h1 h2 h3
    constructor
    · intro v hv
      rw [List.drop_one] at hv
      simp [resolve_string, h1, h2, h3, hv]
    · intro hv
      rw [List.drop_one] at hv
      simp [resolve_string, h1, h2, h3, hv]
  · intro h
    simp only [resolve_string, if_neg h]

/-- Witness for C6 at a bound token, a missing token and a non-delimited
candidate. -/
theorem resolve_string_c6_witness :
    resolve_string ("%DiskName%".data) [("DiskName".data, "ACME Disk".data)]
      = "ACME Disk".data
    ∧ resolve_string ("%Missing%".data) [("DiskName".data, "ACME Disk".data)]
      = "%Missing%".data
    ∧ resolve_string ("Plain".data) [("DiskName".data, "ACME Disk".data)]
      = "Plain".data :=
  ⟨((resolve_string_c6 ("%DiskName%".data) [("DiskName".data, "ACME Disk".data)]).1
      (by decide) (by decide) (by decide)).1 ("ACME Disk".data) (by decide),
   ((resolve_string_c6 ("%Missing%".data) [("DiskName".data, "ACME Disk".data)]).1
      (by decide) (by decide) (by decide)).2 (by decide),
   (resolve_string_c6 ("Plain".data) [("DiskName".data, "ACME Disk".data)]).2
      (by decide)⟩

/-- C7: a CSV field is quote-wrapped with internal quotes doubled exactly
when it contains a comma, a quote or a newline — the wrapped form is produced
iff the test fires (a field that does not need escaping is emitted verbatim
and then never starts with a quote) — and a missing field renders as the
literal "Unknown". -/
theorem escape_csv_c7 (s : Str) :
    ((s.contains ',' || s.contains '"' || s.contains '\n') = true →
      escape_csv s
        = '"' :: (s.flatMap (fun c => if c == '"' then ['"', '"'] else [c])) ++ ['"'])
    ∧ ((s.contains ',' || s.contains '"' || s.contains '\n') = false → escape_csv s = s)
    ∧ ((escape_csv s).head? = some '"'
        ↔ (s.contains ',' || s.contains '"' || s.contains '\n') = true)
    ∧ csv_field none = "Unknown".data := by
  refine ⟨?_, ?_, ?_, by decide⟩
  · intro h
    unfold escape_csv
    rw [if_pos h]
  · intro h
    unfold escape_csv
    rw [if_neg (by rw [h]; simp)]
  · constructor
    · intro hh
      by_contra hc
      have hcf : (s.contains ',' || s.contains '"' || s.contains '\n') = false := by
        cases hb : (s.contains ',' || s.contains '"' || s.contains '\n') with
        | false => rfl
        | true => exact absurd hb hc
      rw [show escape_csv s = s from by unfold escape_csv; rw [if_neg (by rw [hcf]; simp)]] at hh
      have hmem : '"' ∈ s := by
        cases s with
        | nil => simp at hh
        | cons a t =>
          simp only [List.head?_cons, Option.some.injEq] at hh
          simp [hh]
      have hq : s.contains '"' = true := (contains_iff_mem s '"').2 hmem
      rw [hq] at hcf
      simp at hcf
    · intro h
      rw [show escape_csv s
          = '"' :: (s.flatMap (fun c => if c == '"' then ['"', '"'] else [c])) ++ ['"']
        from by unfold escape_csv; rw [if_pos h]]
      rfl

/-- Witness for C7: a field containing a comma is wrapped; one without
special characters passes through. -/
theorem escape_csv_c7_witness :
    escape_csv ("a,b".data)
      = '"' :: (("a,b".data).flatMap (fun c => if c == '"' then ['"', '"'] else [c])) ++ ['"']
    ∧ escape_csv ("ab".data) = "ab".data :=
  ⟨(escape_csv_c7 ("a,b".data)).1 (by decide),
   (escape_csv_c7 ("ab".data)).2.1 (by decide)⟩

theorem takeWhile_append_sep (sep : Char) (pre rest : Str) (h : ¬ sep ∈ pre) :
    (pre ++ sep :: rest).takeWhile (fun c => c != sep) = pre := by
  induction pre with
  | nil => simp [List.takeWhile_cons]
  | cons a t ih =>
    have ha : (a != sep) = true := by
      simp only [bne_iff_ne, ne_eq]
      intro e
      exact h (by simp [e])
    have ht : ¬ sep ∈ t := fun m => h (by simp [m])
    simp [List.takeWhile_cons, ha, ih ht]

theorem dropWhile_append_sep (sep : Char) (pre rest : Str) (h : ¬ sep ∈ pre) :
    (pre ++ sep :: rest).dropWhile (fun c => c != sep) = sep :: rest := by
  induction pre with
  | nil => simp [List.dropWhile_cons]
  | cons a t ih =>
    have ha : (a != sep) = true := by
      simp only [bne_iff_ne, ne_eq]
      intro e
      exact h (by simp [e])
    have ht : ¬ sep ∈ t := fun m => h (by simp [m])
    simp [List.dropWhile_cons, ha, ih ht]

theorem splitn2_append (sep : Char) (pre rest : Str) (h : pre.contains sep = false) :
    splitn2 sep (pre ++ sep :: rest) = [pre, rest] := by
  have hmem : ¬ sep ∈ pre := by
    intro hm
    have hx := (contains_iff_mem pre sep).2 hm
    rw [h] at hx
    simp at hx
  have hcont : (pre ++ sep :: rest).contains sep = true :=
    (contains_iff_mem _ _).2 (List.mem_append.2 (Or.inr (List.mem_cons_self _ _)))
  simp [splitn2, hcont, takeWhile_append_sep sep pre rest hmem,
    dropWhile_append_sep sep pre rest hmem]

theorem splitn2_no_sep (sep : Char) (s : Str) (h : s.contains sep = false) :
    splitn2 sep s = [s] := by
  unfold splitn2
  rw [if_neg (by rw [h]; simp)]

/-- C8: for a version-section line `driverver=DATE,VERSION` (DATE free of
commas, the whole value free of surrounding whitespace/quotes), the parsed
version block carries `driver_date = DATE` and `driver_version = VERSION`
verbatim up to trimming, with no reformatting; when the VERSION component is
absent, only `driver_date` is set and `driver_version` keeps its previous
(unset) value. -/
theorem parse_version_line_c8 :
    (∀ (d v : Str) (vi : InfVersionInfo),
      d.contains ',' = false →
      rustTrim (d ++ ',' :: v) = d ++ ',' :: v →
      trimQuotes (d ++ ',' :: v) = d ++ ',' :: v →
      parse_version_line ("driverver".data ++ '=' :: (d ++ ',' :: v)) vi
        = { vi with driver_date := some (rustTrim d), driver_version := some (rustTrim v) })
    ∧ (∀ (d : Str) (vi : InfVersionInfo),
      d.contains ',' = false →
      rustTrim d = d → trimQuotes d = d →
      parse_version_line ("driverver".data ++ '=' :: d) vi
        = { vi with driver_date := some d }) := by
  have hpre : ("driverver".data).contains '=' = false := by decide
  have hkey : toLowerStr (rustTrim ("driverver".data)) = "driverver".data := by decide
  constructor
  · intro d v vi hc htrim hq
    have e1 := splitn2_append '=' ("driverver".data) (d ++ ',' :: v) hpre
    have e2 := splitn2_append ',' d v hc
    unfold parse_version_line
    rw [e1]
    simp [hkey, htrim, hq, e2]
  · intro d vi hc ht hq
    have e1 := splitn2_append '=' ("driverver".data) d hpre
    have e2 := splitn2_no_sep ',' d hc
    unfold parse_version_line
    rw [e1]
    simp [hkey, ht, hq, e2]

/-- Witness for C8 at the concrete lines `driverver=01/02/2020, 1.2.3` and
`driverver=01/02/2020`. -/
theorem parse_version_line_c8_witness :
    parse_version_line ("driverver".data ++ '=' :: ("01/02/2020".data ++ ',' :: " 1.2.3".data))
        defaultVersionInfo
      = { defaultVersionInfo with
          driver_date := some (rustTrim ("01/02/2020".data)),
          driver_version := some (rustTrim (" 1.2.3".data)) }
    ∧ parse_version_line ("driverver".data ++ '=' :: "01/02/2020".data) defaultVersionInfo
      = { defaultVersionInfo with driver_date := some ("01/02/2020".data) } :=
  ⟨parse_version_line_c8.1 ("01/02/2020".data) (" 1.2.3".data) defaultVersionInfo
      (by decide) (by decide) (by decide),
   parse_version_line_c8.2 ("01/02/2020".data) defaultVersionInfo
      (by decide) (by decide) (by decide)⟩

theorem hardware_id_ok_iff (hw : Str) : hardware_id_ok hw = true ↔ claimAccept hw := by
  simp [hardware_id_ok, claimAccept, busPrefixes, List.isPrefixOf_iff_prefix]
  tauto

/-- C9: the hardware-id test of `parse_device_line` accepts exactly the
non-empty ids that either start case-insensitively with one of the bus
prefixes `PCI\`, `USB\`, `HDAUDIO\`, `ACPI\`, `HID\`, `SWD\`, `ROOT\` or
contain a `VEN_` / `DEV_` vendor-device token marker; and for a device line
whose right-hand side has a second comma-delimited field, an accepted id
appends exactly one (description, hardware id) entry under the current
section while a rejected id leaves the table unchanged — the line is silently
dropped, producing no record and no error. -/
theorem parse_device_line_c9 :
    (∀ hw : Str, hardware_id_ok hw = true ↔ claimAccept hw)
    ∧ ∀ (desc rhs sec : Str) (tbl : List (Str × List (Str × Str)))
        (f0 f1 : Str) (fs : List Str),
      desc.contains '=' = false →
      List.splitOn ',' (rustTrim rhs) = f0 :: f1 :: fs →
      ((claimAccept (rustTrim f1) →
        parse_device_line (desc ++ '=' :: rhs) sec tbl
          = pushEntry sec (rustTrim desc, rustTrim f1) tbl)
      ∧ (¬ claimAccept (rustTrim f1) →
        parse_device_line (desc ++ '=' :: rhs) sec tbl = tbl)) := by
  refine ⟨hardware_id_ok_iff, ?_⟩
  intro desc rhs sec tbl f0 f1 fs hne hsplit
  have e1 := splitn2_append '=' desc rhs hne
  constructor
  · intro hacc
    have hb : hardware_id_ok (rustTrim f1) = true := (hardware_id_ok_iff _).2 hacc
    unfold parse_device_line
    rw [e1]
    simp [hsplit, hb]
  · intro hacc
    have hb : hardware_id_ok (rustTrim f1) = false := by
      cases hok : hardware_id_ok (rustTrim f1) with
      | false => rfl
      | true => exact absurd ((hardware_id_ok_iff _).1 hok) hacc
    unfold parse_device_line
    rw [e1]
    simp [hsplit, hb]

/-- Witness for C9: the line `Dev1=Inst, PCI\VEN_0001` yields one entry, the
line `Dev1=Inst, junk` is silently dropped. -/
theorem parse_device_line_c9_witness :
    parse_device_line ("Dev1".data ++ '=' :: "Inst, PCI\\VEN_0001".data) ("seca".data) []
      = pushEntry ("seca".data) (rustTrim ("Dev1".data), rustTrim (" PCI\\VEN_0001".data)) []
    ∧ parse_device_line ("Dev1".data ++ '=' :: "Inst, junk".data) ("seca".data) [] = [] :=
  ⟨(parse_device_line_c9.2 ("Dev1".data) ("Inst, PCI\\VEN_0001".data) ("seca".data) []
      ("Inst".data) (" PCI\\VEN_0001".data) [] (by decide) (by decide)).1
      (by unfold claimAccept; decide),
   (parse_device_line_c9.2 ("Dev1".data) ("Inst, junk".data) ("seca".data) []
      ("Inst".data) (" junk".data) [] (by decide) (by decide)).2
      (by unfold claimAccept; decide)⟩
